import Mathlib

/-!
Verification of the bulk image fetcher in `image_downloader.py` (CSK-SNIFFER).

The development is a shallow embedding of the fetcher:

* Layer 1 is a sequential model: each spawned worker runs to completion at its
  spawn point.  Network and filesystem effects are inputs: a `Candidate`
  carries what the network returns for its URL (`Fetch`), whether URL
  splitting succeeds (`urllib.parse.urlsplit` raises `ValueError` on
  malformed input such as an unbalanced IPv6 bracket), and whether the file
  write succeeds.  The external library functions `hashlib.md5` and
  `imghdr.what` are fields of an `Env` parameter.
* Layer 2 is an interleaved small-step machine over the same worker body,
  split at the blocking points of the source (network read, semaphore
  acquisition, file write) and additionally at the two counter increments of
  lines 145-146, which are separate statements unprotected against the
  lock-free counter reads of lines 107 and 115, together with the
  per-keyword session control path (pagination, spawning, history flush).
  A schedule is a list of actor choices.

Bytes are modelled as `String`.  The directory written into is an
association list from filename to content, newest entry first (matching
last-write-wins).  The URL-derived extension of source lines 67-86 is not
modelled: for every written file it is superseded by the content-derived
extension of lines 99-107, and otherwise it only appears in log text.
Likewise the corrupted-existing-file branch (lines 127-130) is not
modelled because reads from the modelled directory always succeed.
-/

namespace CskSniffer

/-- External collaborators of the worker: `hashlib.md5(...).hexdigest()` and
`imghdr.what(None, image)` from the Python standard library. -/
structure Env where
  md5 : String → String
  imghdr_what : String → Option String

/-- The module-level mutable state of `image_downloader.py`
(lines 40-44): `tried_urls`, `image_md5s`, `in_progress`,
`image_counter`, `successful_downloads`. -/
structure DState where
  tried_urls : List String
  image_md5s : List (String × String)
  image_counter : Nat
  successful_downloads : Nat
  in_progress : Nat
deriving DecidableEq

/-- The output directory: filename to file content, newest write first. -/
abbrev FS := List (String × String)

/-- Lookup in an association list (Python `dict` access / `os.path.exists`
plus read on the modelled directory). -/
def lookupAssoc (l : List (String × String)) (k : String) : Option String :=
  match l with
  | [] => none
  | (a, b) :: rest => if a = k then some b else lookupAssoc rest k

/-- What `urllib.request.urlopen(...).read()` produces for one candidate URL:
the downloaded bytes, or an exception. -/
inductive Fetch where
  | ok (content : String)
  | err
deriving DecidableEq

/-- The observable outcome of one call to `download` (the print branches of
lines 60-150, plus `raised` for an exception escaping the function). -/
inductive Outcome where
  | raised
  | skipTried
  | failNetwork
  | skipInvalid
  | skipDupContent (original : String)
  | skipLimit
  | skipAlreadySaved
  | skipConflict
  | failWrite
  | ok (filename : String)
deriving DecidableEq

/-- One candidate URL together with the behaviour of the world on it:
whether `urllib.parse.urlsplit` succeeds, what the fetch returns, and
whether the file write succeeds. -/
structure Candidate where
  url : String
  parseOk : Bool
  fetch : Fetch
  writeOk : Bool
deriving DecidableEq

/-- Content-derived extension, lines 99-104: jpeg/jpg map to ".jpg", png to
".png", every other detected format falls back to ".jpg". -/
def ext_of_format (fmt : String) : String :=
  if fmt = "jpeg" ∨ fmt = "jpg" then ".jpg"
  else if fmt = "png" then ".png"
  else ".jpg"

/-- Sequential filename, line 107: `f"Image{image_counter + 1}{file_extension}"`. -/
def mkName (i : Nat) (ext : String) : String :=
  "Image" ++ toString i ++ ext

/-- The limit test of lines 115 and 199:
`limit is not None and successful_downloads >= limit`. -/
def limit_hit (limit : Option Nat) (s : Nat) : Bool :=
  match limit with
  | none => false
  | some L => L ≤ s

/-- Result of one sequential `download` call: the new global state, the new
directory contents, the outcome, and how many network fetches were issued. -/
structure DResult where
  state : DState
  fs : FS
  outcome : Outcome
  fetchCount : Nat
deriving DecidableEq

/-- Sequential model of `download` (lines 48-155).  Control flow follows the
source: tried-URL check (60), pool acquire and `in_progress += 1` (63-64),
URL split (68, outside the `try`, so a parse exception escapes and the
`finally` of line 151 does not run), fetch (90), `imghdr` check (93-96),
content-derived extension and filename (99-107), fingerprint and duplicate
check (109-112), limit re-check (115), existing-file check (119-133),
fingerprint registration (135, before the write), write (141-142), counter
and ledger updates (144-148).  All caught exceptions fall into the
`finally`, so `in_progress` returns to its initial value except on the
escaped parse exception. -/
def download (env : Env) (url : String) (parseOk : Bool) (fetch : Fetch)
    (writeOk : Bool) (limit : Option Nat) (st : DState) (fs : FS) : DResult :=
  if url ∈ st.tried_urls then
    ⟨st, fs, .skipTried, 0⟩
  else if parseOk = false then
    ⟨{ st with in_progress := st.in_progress + 1 }, fs, .raised, 0⟩
  else
    match fetch with
    | .err => ⟨st, fs, .failNetwork, 1⟩
    | .ok content =>
      match env.imghdr_what content with
      | none => ⟨st, fs, .skipInvalid, 1⟩
      | some fmt =>
        let filename := mkName (st.image_counter + 1) (ext_of_format fmt)
        let md5_key := env.md5 content
        match lookupAssoc st.image_md5s md5_key with
        | some original => ⟨st, fs, .skipDupContent original, 1⟩
        | none =>
          if limit_hit limit st.successful_downloads then
            ⟨st, fs, .skipLimit, 1⟩
          else
            match lookupAssoc fs filename with
            | some existing =>
              if env.md5 existing = md5_key then ⟨st, fs, .skipAlreadySaved, 1⟩
              else ⟨st, fs, .skipConflict, 1⟩
            | none =>
              let st1 := { st with image_md5s := (md5_key, filename) :: st.image_md5s }
              if writeOk = false then
                ⟨st1, fs, .failWrite, 1⟩
              else
                ⟨{ st1 with
                    image_counter := st1.image_counter + 1,
                    successful_downloads := st1.successful_downloads + 1,
                    tried_urls := st1.tried_urls ++ [url] },
                  (filename, content) :: fs, .ok filename, 1⟩

/-- One pagination step's result: the extracted candidates of a page, or an
exception while requesting/processing the page (lines 208-213). -/
inductive PageResult where
  | ok (cands : List Candidate)
  | err
deriving DecidableEq

/-- Why `fetch_images_from_keyword` returned.  `pagesExhausted` is a model
artifact: the finite input list of pages ended without any of the source's
termination conditions firing (the real loop would request a further page). -/
inductive StopReason where
  | noResults
  | noNewResults
  | limitReached
  | pageError
  | pagesExhausted
deriving DecidableEq

/-- Result of one keyword run: final state, directory, stop reason, and the
number of workers spawned (`thread.start()` calls). -/
structure KResult where
  state : DState
  fs : FS
  reason : StopReason
  spawned : Nat
deriving DecidableEq

/-- The per-page spawn loop (lines 197-204): before each candidate the limit
is re-checked (199) and on hit the whole function returns; otherwise a worker
is spawned (here: run to completion, sequential model). -/
def runPageCandidates (env : Env) (limit : Option Nat) :
    List Candidate → DState → FS → Nat → DState × FS × Nat × Bool
  | [], st, fs, spawned => (st, fs, spawned, false)
  | c :: rest, st, fs, spawned =>
    if limit_hit limit st.successful_downloads then (st, fs, spawned, true)
    else
      let r := download env c.url c.parseOk c.fetch c.writeOk limit st fs
      runPageCandidates env limit rest r.state r.fs (spawned + 1)

/-- The pagination loop of `fetch_images_from_keyword` (lines 173-213) over a
finite list of page outcomes.  Empty extraction returns `noResults`
(190-192); a repeated last link returns `noNewResults` before any spawn for
that page (194-195); a page-level exception returns `pageError` (208-213);
the limit check inside the spawn loop returns `limitReached` (199-201).
The throttle of line 176 is invisible here because `in_progress` is back to
its baseline between sequential workers. -/
def fetchLoop (env : Env) (limit : Option Nat) :
    List PageResult → String → DState → FS → Nat → KResult
  | [], _, st, fs, spawned => ⟨st, fs, .pagesExhausted, spawned⟩
  | .err :: _, _, st, fs, spawned => ⟨st, fs, .pageError, spawned⟩
  | .ok cands :: rest, lastLink, st, fs, spawned =>
    if cands = [] then ⟨st, fs, .noResults, spawned⟩
    else if (cands.map Candidate.url).getLast? = some lastLink then
      ⟨st, fs, .noNewResults, spawned⟩
    else
      match runPageCandidates env limit cands st fs spawned with
      | (st1, fs1, spawned1, true) => ⟨st1, fs1, .limitReached, spawned1⟩
      | (st1, fs1, spawned1, false) =>
          fetchLoop env limit rest ((cands.map Candidate.url).getLastD "")
            st1 fs1 spawned1

/-- `fetch_images_from_keyword` (lines 158-213): the loop started with
`last_link = ''` and no spawns yet. -/
def fetch_images_from_keyword (env : Env) (limit : Option Nat)
    (pages : List PageResult) (st : DState) (fs : FS) : KResult :=
  fetchLoop env limit pages "" st fs 0

/-- The pickled history artifact: `tried_urls` then a copy of `image_md5s`
(lines 221-227). -/
structure Ledger where
  tried_urls : List String
  image_md5s : List (String × String)
deriving DecidableEq

/-- `backup_history` (lines 216-233): serialize the two ledger structures. -/
def backup_history (st : DState) : Ledger :=
  ⟨st.tried_urls, st.image_md5s⟩

/-- `load_download_history` (lines 235-246): on a readable history file both
structures are replaced by the pickled values; on a missing file only
`tried_urls` is reset to the empty list. -/
def load_download_history (st : DState) : Option Ledger → DState
  | some l => { st with tried_urls := l.tried_urls, image_md5s := l.image_md5s }
  | none => { st with tried_urls := [] }

/-- The per-keyword counter reset of lines 264-266. -/
def resetCounters (st : DState) : DState :=
  { st with image_counter := 0, successful_downloads := 0 }

/-- One keyword line of the search file together with the pages the backend
will serve for it and the initial contents of its output subdirectory. -/
structure KeywordTask where
  keyword : String
  pages : List PageResult
  dirFS : FS
deriving DecidableEq

/-- `process_search_file` (lines 249-276), sequential model: for each
non-empty keyword line, reset the counters, run the keyword, then write the
history checkpoint.  Returns the final state and, per processed keyword, the
keyword, its directory and the ledger checkpointed after it. -/
def process_search_file (env : Env) (limit : Option Nat) :
    List KeywordTask → DState → DState × List (String × FS × Ledger)
  | [], st => (st, [])
  | t :: rest, st =>
    if t.keyword.trim = "" then process_search_file env limit rest st
    else
      let r := fetchLoop env limit t.pages "" (resetCounters st) t.dirFS 0
      let ledger := backup_history r.state
      let out := process_search_file env limit rest r.state
      (out.1, (t.keyword.trim, r.fs, ledger) :: out.2)

/-- Phases of a running worker in the interleaved machine. Each phase is one
region of `download` at whose boundary another thread can observably
interleave: `ph0` lines 60-90 (tried-URL check, pool acquire, URL split,
network read), `ph1` lines 93-116 (`imghdr`, extension, filename from the
shared counter, fingerprint, duplicate and limit checks), `ph2` lines
119-135 (existing-file check, fingerprint registration), `ph3` line 137
(`img_sema.acquire()`, blocked while another worker holds it), `ph4` lines
141-142 (the file write, or the exception path of a failing write), `ph5`
line 145 (`image_counter += 1`), `ph6` line 146 (`successful_downloads +=
1`), `ph7` lines 148-155 (append to `tried_urls`, release `img_sema`,
decrement `in_progress`).  The two counter increments are separate source
statements: `img_sema` keeps other writers out, but the counter reads at
lines 107 and 115 take no lock, so the increments are separate steps. -/
inductive WPhase where
  | ph0
  | ph1
  | ph2
  | ph3
  | ph4
  | ph5
  | ph6
  | ph7
  | done
deriving DecidableEq

/-- A worker thread: its candidate, current phase, the locals it has
computed so far, and its final outcome once done. -/
structure WState where
  cand : Candidate
  phase : WPhase
  filename : String
  content : String
  md5key : String
  outcome : Option Outcome
deriving DecidableEq

/-- A freshly spawned worker (`threading.Thread(target=download, ...)`). -/
def initW (c : Candidate) : WState :=
  ⟨c, .ph0, "", "", "", none⟩

/-- The state shared between threads: the module globals, the output
directory, and whether `img_sema` (a `threading.Semaphore()` with one
permit) is currently held. -/
structure CState where
  st : DState
  fs : FS
  semaHeld : Bool
deriving DecidableEq

/-- The `finally` decrement `in_progress -= 1` of line 155. -/
def decInProgress (c : CState) : CState :=
  { c with st := { c.st with in_progress := c.st.in_progress - 1 } }

/-- One step of one worker in the interleaved machine.  Each arm performs
exactly the shared-state reads and writes of its source region; a worker
blocked on `img_sema` leaves the configuration unchanged. -/
def wstep (env : Env) (limit : Option Nat) (c : CState) (w : WState) :
    CState × WState :=
  match w.phase with
  | .ph0 =>
    if w.cand.url ∈ c.st.tried_urls then
      (c, { w with phase := .done, outcome := some .skipTried })
    else
      let c1 : CState := { c with st := { c.st with in_progress := c.st.in_progress + 1 } }
      if w.cand.parseOk = false then
        (c1, { w with phase := .done, outcome := some .raised })
      else
        match w.cand.fetch with
        | .err => (decInProgress c1, { w with phase := .done, outcome := some .failNetwork })
        | .ok content => (c1, { w with phase := .ph1, content := content })
  | .ph1 =>
    match env.imghdr_what w.content with
    | none => (decInProgress c, { w with phase := .done, outcome := some .skipInvalid })
    | some fmt =>
      let filename := mkName (c.st.image_counter + 1) (ext_of_format fmt)
      let md5key := env.md5 w.content
      match lookupAssoc c.st.image_md5s md5key with
      | some original =>
          (decInProgress c, { w with phase := .done, outcome := some (.skipDupContent original) })
      | none =>
        if limit_hit limit c.st.successful_downloads then
          (decInProgress c, { w with phase := .done, outcome := some .skipLimit })
        else
          (c, { w with phase := .ph2, filename := filename, md5key := md5key })
  | .ph2 =>
    match lookupAssoc c.fs w.filename with
    | some existing =>
      if env.md5 existing = w.md5key then
        (decInProgress c, { w with phase := .done, outcome := some .skipAlreadySaved })
      else
        (decInProgress c, { w with phase := .done, outcome := some .skipConflict })
    | none =>
      ({ c with st := { c.st with image_md5s := (w.md5key, w.filename) :: c.st.image_md5s } },
       { w with phase := .ph3 })
  | .ph3 =>
    if c.semaHeld then (c, w)
    else ({ c with semaHeld := true }, { w with phase := .ph4 })
  | .ph4 =>
    if w.cand.writeOk = false then
      ({ c with
          semaHeld := false,
          st := { c.st with in_progress := c.st.in_progress - 1 } },
       { w with phase := .done, outcome := some .failWrite })
    else
      ({ c with fs := (w.filename, w.content) :: c.fs },
       { w with phase := .ph5 })
  | .ph5 =>
    ({ c with st := { c.st with image_counter := c.st.image_counter + 1 } },
     { w with phase := .ph6 })
  | .ph6 =>
    ({ c with st := { c.st with
        successful_downloads := c.st.successful_downloads + 1 } },
     { w with phase := .ph7 })
  | .ph7 =>
    ({ c with
        semaHeld := false,
        st := { c.st with
                  tried_urls := c.st.tried_urls ++ [w.cand.url],
                  in_progress := c.st.in_progress - 1 } },
     { w with phase := .done, outcome := some (.ok w.filename) })
  | .done => (c, w)

/-- Control state of the session thread for one keyword: `paginating` runs
the loop of `fetch_images_from_keyword` (one page load or one spawn per
step), `backingUp` performs the `backup_history()` call of line 275, `sdone`
is after the checkpoint. -/
inductive SPhase where
  | paginating
  | backingUp
  | sdone
deriving DecidableEq

/-- The session thread's state: pages still to be requested, candidates of
the current page not yet spawned, the previous page's last link, the control
phase, and the ledger checkpoint once written. -/
structure SessState where
  pages : List PageResult
  pending : List Candidate
  lastLink : String
  phase : SPhase
  ledger : Option Ledger
deriving DecidableEq

/-- A whole configuration of the interleaved machine. -/
structure Config where
  shared : CState
  sess : SessState
  workers : List WState
deriving DecidableEq

/-- One step of the session thread.  While paginating it spawns the next
pending candidate (after the limit re-check of line 199) or requests the
next page (lines 180-195), moving to `backingUp` when the loop of
`fetch_images_from_keyword` returns; the `backingUp` step snapshots the
ledger exactly as `backup_history` does, with no synchronization on worker
completion, because `process_search_file` calls it directly after
`fetch_images_from_keyword` returns with no `join` on spawned threads. -/
def sstep (limit : Option Nat) (cfg : Config) : Config :=
  match cfg.sess.phase with
  | .sdone => cfg
  | .backingUp =>
    { cfg with sess := { cfg.sess with
        ledger := some (backup_history cfg.shared.st), phase := .sdone } }
  | .paginating =>
    match cfg.sess.pending with
    | c :: restP =>
      if limit_hit limit cfg.shared.st.successful_downloads then
        { cfg with sess := { cfg.sess with phase := .backingUp } }
      else
        { cfg with sess := { cfg.sess with pending := restP },
                   workers := cfg.workers ++ [initW c] }
    | [] =>
      match cfg.sess.pages with
      | [] => { cfg with sess := { cfg.sess with phase := .backingUp } }
      | .err :: _ => { cfg with sess := { cfg.sess with phase := .backingUp } }
      | .ok cands :: restPages =>
        if cands = [] then { cfg with sess := { cfg.sess with phase := .backingUp } }
        else if (cands.map Candidate.url).getLast? = some cfg.sess.lastLink then
          { cfg with sess := { cfg.sess with phase := .backingUp } }
        else
          { cfg with sess := { cfg.sess with
              pages := restPages, pending := cands,
              lastLink := (cands.map Candidate.url).getLastD "" } }

/-- One scheduled step: `none` runs the session thread, `some i` runs worker
`i` (a no-op if there is no such worker). -/
def astep (env : Env) (limit : Option Nat) (cfg : Config) :
    Option Nat → Config
  | none => sstep limit cfg
  | some i =>
    match cfg.workers.get? i with
    | none => cfg
    | some w =>
      let p := wstep env limit cfg.shared w
      { cfg with shared := p.1, workers := cfg.workers.set i p.2 }

/-- Run the interleaved machine under a schedule. -/
def runSession (env : Env) (limit : Option Nat) :
    List (Option Nat) → Config → Config
  | [], cfg => cfg
  | a :: rest, cfg => runSession env limit rest (astep env limit cfg a)

/-- Filenames reported as successfully written by finished workers. -/
def okNames (ws : List WState) : List String :=
  ws.filterMap fun w =>
    match w.outcome with
    | some (Outcome.ok n) => some n
    | _ => none

/-- An environment for concrete runs: the fingerprint of a content string is
the string itself, and every content is detected as jpeg. -/
def env0 : Env :=
  ⟨fun s => s, fun _ => some "jpeg"⟩

/-- An environment whose byte-content detector reports every content as a
gif. -/
def envGif : Env :=
  ⟨fun s => s, fun _ => some "gif"⟩

/-- The module state at interpreter start (lines 40-44). -/
def st0 : DState :=
  ⟨[], [], 0, 0, 0⟩

/-- Modelled from the spec: "file content matches its extension" /
"the extension of the written filename matches the content's actual
detected media format".  An extension matches a detected format when it is
the conventional extension of that format: ".jpg" for the jpeg family, and
".<format>" otherwise. -/
def extension_matches (ext fmt : String) : Bool :=
  ((fmt == "jpeg" || fmt == "jpg") && ext == ".jpg") ||
    (fmt == "png" && ext == ".png") || ext == "." ++ fmt

/-- The invariant characterizing the directory of a serialized keyword run:
its filenames are exactly `Image<counter>.<e>` down to `Image1.<e>`, each
with a content-derived extension. -/
def FsInv (st : DState) (fs : FS) : Prop :=
  ∃ exts : Nat → String,
    (∀ k, exts k = ".jpg" ∨ exts k = ".png") ∧
    fs.map Prod.fst =
      (List.range st.image_counter).reverse.map (fun k => mkName (k + 1) (exts k))

/-- Bundle of the serialized-run invariants: contiguous sequential names,
no duplicate filename, and the counter equal to the success count. -/
def SeqInv (st : DState) (fs : FS) : Prop :=
  FsInv st fs ∧ (fs.map Prod.fst).Nodup ∧
    st.image_counter = st.successful_downloads

/-- A candidate whose fetch returns bytes "a" and whose write succeeds. -/
def cand_a : Candidate := ⟨"u1", true, .ok "a", true⟩

/-- A second candidate with different bytes "b". -/
def cand_b : Candidate := ⟨"u2", true, .ok "b", true⟩

/-- A single page holding the two concrete candidates. -/
def pages1 : List PageResult := [PageResult.ok [cand_a]]

/-- Interleaved-run start: one page with the two concrete candidates. -/
def cfg2 : Config :=
  ⟨⟨st0, [], false⟩, ⟨[PageResult.ok [cand_a, cand_b]], [], "", .paginating, none⟩, []⟩

/-- A schedule in which the session spawns both workers, both workers read
the shared counter (and pass the limit and existing-file checks) before
either has written, and both then write in turn. -/
def sched2 : List (Option Nat) :=
  [none, none, none, some 0, some 1, some 0, some 1, some 0, some 1,
    some 0, some 1, some 0, some 0, some 0, some 0,
    some 1, some 1, some 1, some 1, some 1]

/-- A schedule in which the first worker has written its file and executed
the `image_counter` increment of line 145 but not yet the
`successful_downloads` increment of line 146 when the second worker reads
the counter at line 107. -/
def schedC10 : List (Option Nat) :=
  [none, none, none, some 0, some 0, some 0, some 0, some 0, some 0,
    some 1, some 1]

/-- Interleaved-run start for the checkpoint-timing run: one page with one
candidate. -/
def cfg7 : Config :=
  ⟨⟨st0, [], false⟩, ⟨[PageResult.ok [cand_a]], [], "", .paginating, none⟩, []⟩

/-- Session-only schedule: load the page, spawn the worker, finish
pagination, and run the history checkpoint, before the worker moves at all. -/
def sched7a : List (Option Nat) := [none, none, none, none]

/-- The same schedule continued until the spawned worker finishes. -/
def sched7 : List (Option Nat) :=
  sched7a ++ [some 0, some 0, some 0, some 0, some 0, some 0, some 0, some 0]

/-- Interleaved-run start for witnesses on the machine: session already past
pagination, one finished worker. -/
def cfgW : Config :=
  ⟨⟨st0, [], false⟩, ⟨[], [], "", .backingUp, none⟩,
    [⟨cand_a, .done, "", "", "", some .skipTried⟩]⟩

/-- A state whose attempted-URL set already holds "u1". -/
def stTried : DState := ⟨["u1"], [], 0, 0, 0⟩

/-- A false limit test means the success counter is still strictly below the
limit. -/
theorem limit_hit_false {L s : Nat} (h : limit_hit (some L) s = false) : s < L := by
  simp [limit_hit] at h
  omega

/-- A true limit test means the limit is already covered. -/
theorem limit_hit_true {L s : Nat} (h : limit_hit (some L) s = true) : L ≤ s := by
  simpa [limit_hit] using h

/-- A key that `lookupAssoc` misses is not among the stored keys. -/
theorem lookupAssoc_eq_none {l : List (String × String)} {k : String}
    (h : lookupAssoc l k = none) : k ∉ l.map Prod.fst := by
  induction l with
  | nil => simp
  | cons a rest ih =>
    obtain ⟨a1, a2⟩ := a
    by_cases ha : a1 = k
    · simp [lookupAssoc, ha] at h
    · simp only [lookupAssoc, if_neg ha] at h
      simp only [List.map_cons, List.mem_cons]
      rintro (h1 | h1)
      · exact ha h1.symm
      · exact ih h h1

/-- The content-derived extension is always ".jpg" or ".png". -/
theorem ext_of_format_cases (fmt : String) :
    ext_of_format fmt = ".jpg" ∨ ext_of_format fmt = ".png" := by
  unfold ext_of_format
  split
  · exact Or.inl rfl
  · split
    · exact Or.inr rfl
    · exact Or.inl rfl

/-- Exhaustive description of one sequential `download` call: it is a
skip on an already-tried URL, an escaped parse exception, a discard that
leaves everything unchanged, a failed write that has already registered the
fingerprint, or a full success. -/
theorem download_spec (env : Env) (url : String) (p : Bool) (f : Fetch) (w : Bool)
    (lim : Option Nat) (st : DState) (fs : FS) :
    (url ∈ st.tried_urls ∧
      download env url p f w lim st fs = ⟨st, fs, .skipTried, 0⟩)
    ∨ (url ∉ st.tried_urls ∧ p = false ∧
      download env url p f w lim st fs =
        ⟨{ st with in_progress := st.in_progress + 1 }, fs, .raised, 0⟩)
    ∨ (∃ oc, download env url p f w lim st fs = ⟨st, fs, oc, 1⟩ ∧
        (oc = .failNetwork ∨ oc = .skipInvalid ∨ (∃ o, oc = .skipDupContent o) ∨
          oc = .skipLimit ∨ oc = .skipAlreadySaved ∨ oc = .skipConflict))
    ∨ (∃ content fmt,
        f = .ok content ∧ env.imghdr_what content = some fmt ∧ w = false ∧
        download env url p f w lim st fs =
          ⟨{ st with image_md5s :=
              (env.md5 content, mkName (st.image_counter + 1) (ext_of_format fmt)) ::
                st.image_md5s },
            fs, .failWrite, 1⟩)
    ∨ (∃ content fmt,
        f = .ok content ∧ env.imghdr_what content = some fmt ∧
        limit_hit lim st.successful_downloads = false ∧
        lookupAssoc fs (mkName (st.image_counter + 1) (ext_of_format fmt)) = none ∧
        download env url p f w lim st fs =
          ⟨⟨st.tried_urls ++ [url],
            (env.md5 content, mkName (st.image_counter + 1) (ext_of_format fmt)) ::
              st.image_md5s,
            st.image_counter + 1, st.successful_downloads + 1, st.in_progress⟩,
            (mkName (st.image_counter + 1) (ext_of_format fmt), content) :: fs,
            .ok (mkName (st.image_counter + 1) (ext_of_format fmt)), 1⟩) := by
  by_cases h1 : url ∈ st.tried_urls
  · exact Or.inl ⟨h1, by simp [download, h1]⟩
  · by_cases hp : p = false
    · exact Or.inr (Or.inl ⟨h1, hp, by simp [download, h1, hp]⟩)
    · have hp' : p = true := by revert hp; cases p <;> simp
      cases f with
      | err =>
        refine Or.inr (Or.inr (Or.inl ⟨.failNetwork, ?_, Or.inl rfl⟩))
        simp [download, h1, hp']
      | ok content =>
        cases henv : env.imghdr_what content with
        | none =>
          refine Or.inr (Or.inr (Or.inl ⟨.skipInvalid, ?_, Or.inr (Or.inl rfl)⟩))
          simp [download, h1, hp', henv]
        | some fmt =>
          cases hmd : lookupAssoc st.image_md5s (env.md5 content) with
          | some original =>
            refine Or.inr (Or.inr (Or.inl ⟨.skipDupContent original, ?_,
              Or.inr (Or.inr (Or.inl ⟨original, rfl⟩))⟩))
            simp [download, h1, hp', henv, hmd]
          | none =>
            cases hlim : limit_hit lim st.successful_downloads with
            | true =>
              refine Or.inr (Or.inr (Or.inl ⟨.skipLimit, ?_,
                Or.inr (Or.inr (Or.inr (Or.inl rfl)))⟩))
              simp [download, h1, hp', henv, hmd, hlim]
            | false =>
              cases hfs : lookupAssoc fs (mkName (st.image_counter + 1) (ext_of_format fmt)) with
              | some existing =>
                by_cases hmd5 : env.md5 existing = env.md5 content
                · refine Or.inr (Or.inr (Or.inl ⟨.skipAlreadySaved, ?_,
                    Or.inr (Or.inr (Or.inr (Or.inr (Or.inl rfl))))⟩))
                  simp [download, h1, hp', henv, hmd, hlim, hfs, hmd5]
                · refine Or.inr (Or.inr (Or.inl ⟨.skipConflict, ?_,
                    Or.inr (Or.inr (Or.inr (Or.inr (Or.inr rfl))))⟩))
                  simp [download, h1, hp', henv, hmd, hlim, hfs, hmd5]
              | none =>
                by_cases hw : w = false
                · refine Or.inr (Or.inr (Or.inr (Or.inl
                    ⟨content, fmt, rfl, henv, hw, ?_⟩)))
                  simp [download, h1, hp', henv, hmd, hlim, hfs, hw]
                · have hw' : w = true := by revert hw; cases w <;> simp
                  refine Or.inr (Or.inr (Or.inr (Or.inr
                    ⟨content, fmt, rfl, henv, rfl, hfs, ?_⟩)))
                  simp [download, h1, hp', henv, hmd, hlim, hfs, hw']

/-- One `download` call never lifts the success counter above the limit. -/
theorem download_successes_le (env : Env) (url : String) (p : Bool) (f : Fetch)
    (w : Bool) (L : Nat) (st : DState) (fs : FS)
    (h : st.successful_downloads ≤ L) :
    (download env url p f w (some L) st fs).state.successful_downloads ≤ L := by
  rcases download_spec env url p f w (some L) st fs with
    ⟨-, he⟩ | ⟨-, -, he⟩ | ⟨oc, he, -⟩ | ⟨c, fm, -, -, -, he⟩ | ⟨c, fm, -, -, hl, -, he⟩
  · rw [he]; exact h
  · rw [he]; exact h
  · rw [he]; exact h
  · rw [he]; exact h
  · rw [he]
    exact Nat.succ_le_of_lt (limit_hit_false hl)

/-- The spawn loop over one page never lifts the success counter above the
limit. -/
theorem runPageCandidates_successes_le (env : Env) (L : Nat)
    (cands : List Candidate) :
    ∀ st fs sp, st.successful_downloads ≤ L →
      (runPageCandidates env (some L) cands st fs sp).1.successful_downloads ≤ L := by
  induction cands with
  | nil =>
    intro st fs sp h
    simpa [runPageCandidates] using h
  | cons c rest ih =>
    intro st fs sp h
    simp only [runPageCandidates]
    split
    · exact h
    · exact ih _ _ _ (download_successes_le _ _ _ _ _ _ _ _ h)

/-- When the spawn loop stops because of the limit re-check of line 199, the
success counter has already covered the limit. -/
theorem runPageCandidates_hit (env : Env) (L : Nat) (cands : List Candidate) :
    ∀ st fs sp st1 fs1 sp1,
      runPageCandidates env (some L) cands st fs sp = (st1, fs1, sp1, true) →
      L ≤ st1.successful_downloads := by
  induction cands with
  | nil =>
    intro st fs sp st1 fs1 sp1 h
    simp [runPageCandidates] at h
  | cons c rest ih =>
    intro st fs sp st1 fs1 sp1 h
    simp only [runPageCandidates] at h
    split at h
    · rename_i hl
      simp only [Prod.mk.injEq] at h
      obtain ⟨rfl, -, -, -⟩ := h
      exact limit_hit_true hl
    · exact ih _ _ _ _ _ _ h

/-- Limit discipline of the whole pagination loop: the success counter stays
at most L, and a `limitReached` exit happens exactly at L. -/
theorem fetchLoop_limit (env : Env) (L : Nat) (pages : List PageResult) :
    ∀ lastLink st fs sp, st.successful_downloads ≤ L →
      (fetchLoop env (some L) pages lastLink st fs sp).state.successful_downloads ≤ L ∧
      ((fetchLoop env (some L) pages lastLink st fs sp).reason = .limitReached →
        (fetchLoop env (some L) pages lastLink st fs sp).state.successful_downloads = L) := by
  induction pages with
  | nil =>
    intro lastLink st fs sp h
    refine ⟨h, ?_⟩
    intro hr
    simp [fetchLoop] at hr
  | cons pg rest ih =>
    intro lastLink st fs sp h
    cases pg with
    | err =>
      refine ⟨h, ?_⟩
      intro hr
      simp [fetchLoop] at hr
    | ok cands =>
      by_cases hc : cands = []
      · refine ⟨by simpa [fetchLoop, hc] using h, ?_⟩
        intro hr
        simp [fetchLoop, hc] at hr
      · by_cases hl : (cands.map Candidate.url).getLast? = some lastLink
        · refine ⟨by simpa [fetchLoop, hc, hl] using h, ?_⟩
          intro hr
          simp [fetchLoop, hc, hl] at hr
        · rcases hq : runPageCandidates env (some L) cands st fs sp with ⟨st1, fs1, sp1, hit⟩
          have hle : st1.successful_downloads ≤ L := by
            have := runPageCandidates_successes_le env L cands st fs sp h
            rw [hq] at this
            exact this
          cases hit with
          | true =>
            have heq : fetchLoop env (some L) (PageResult.ok cands :: rest) lastLink st fs sp =
                ⟨st1, fs1, .limitReached, sp1⟩ := by
              simp only [fetchLoop]
              rw [if_neg hc, if_neg hl, hq]
            rw [heq]
            exact ⟨hle, fun _ => Nat.le_antisymm hle (runPageCandidates_hit env L cands st fs sp st1 fs1 sp1 hq)⟩
          | false =>
            have heq : fetchLoop env (some L) (PageResult.ok cands :: rest) lastLink st fs sp =
                fetchLoop env (some L) rest ((cands.map Candidate.url).getLastD "") st1 fs1 sp1 := by
              simp only [fetchLoop]
              rw [if_neg hc, if_neg hl, hq]
            rw [heq]
            exact ih _ _ _ _ hle

/-- C1 amended: in a serialized keyword run with a non-null limit L (each
spawned worker completes before the next candidate is processed), starting
from the per-keyword counter reset, the number of successful file writes
(the final `successful_downloads`) is at most L; and if it ends below L,
the run stopped because the candidate sequence ended — empty page, repeated
last link, page-level network error, or the modelled page stream running
out — never via the limit check.  Under concurrent interleavings the bound
can be overshot, because the limit re-check of line 115 is read without any
lock before the increment of line 146 (see the counterexample theorem). -/
theorem keyword_limit_bound (env : Env) (L : Nat) (pages : List PageResult)
    (st : DState) (fs : FS) (h : st.successful_downloads = 0) :
    (fetch_images_from_keyword env (some L) pages st fs).state.successful_downloads ≤ L ∧
    ((fetch_images_from_keyword env (some L) pages st fs).state.successful_downloads < L →
      (fetch_images_from_keyword env (some L) pages st fs).reason = .noResults ∨
      (fetch_images_from_keyword env (some L) pages st fs).reason = .noNewResults ∨
      (fetch_images_from_keyword env (some L) pages st fs).reason = .pageError ∨
      (fetch_images_from_keyword env (some L) pages st fs).reason = .pagesExhausted) := by
  have h0 : st.successful_downloads ≤ L := by omega
  obtain ⟨h1, h2⟩ := fetchLoop_limit env L pages "" st fs 0 h0
  simp only [fetch_images_from_keyword]
  refine ⟨h1, ?_⟩
  intro hlt
  cases hr : (fetchLoop env (some L) pages "" st fs 0).reason with
  | noResults => exact Or.inl rfl
  | noNewResults => exact Or.inr (Or.inl rfl)
  | pageError => exact Or.inr (Or.inr (Or.inl rfl))
  | pagesExhausted => exact Or.inr (Or.inr (Or.inr rfl))
  | limitReached =>
    have := h2 hr
    omega

/-- Witness for C1 at a concrete input: limit 1, one page with one valid
candidate. -/
theorem keyword_limit_bound_witness :
    st0.successful_downloads = 0 ∧
    ((fetch_images_from_keyword env0 (some 1) pages1 st0 []).state.successful_downloads ≤ 1 ∧
    ((fetch_images_from_keyword env0 (some 1) pages1 st0 []).state.successful_downloads < 1 →
      (fetch_images_from_keyword env0 (some 1) pages1 st0 []).reason = .noResults ∨
      (fetch_images_from_keyword env0 (some 1) pages1 st0 []).reason = .noNewResults ∨
      (fetch_images_from_keyword env0 (some 1) pages1 st0 []).reason = .pageError ∨
      (fetch_images_from_keyword env0 (some 1) pages1 st0 []).reason = .pagesExhausted)) :=
  ⟨rfl, keyword_limit_bound env0 1 pages1 st0 [] rfl⟩

/-- C1 counterexample: with limit 1, under the interleaving `sched2` both
workers pass the line-115 limit re-check while `successful_downloads` is
still 0 (and the session's line-199 check at spawn time likewise), and both
then write and increment: the keyword run ends with 2 successful writes and
2 Asset Records despite the limit of 1, so the bound does not hold for
every run. -/
theorem interleaved_limit_overshoot :
    (runSession env0 (some 1) sched2 cfg2).shared.st.successful_downloads = 2 ∧
    okNames (runSession env0 (some 1) sched2 cfg2).workers =
      ["Image1.jpg", "Image1.jpg"] ∧
    ¬ ((runSession env0 (some 1) sched2 cfg2).shared.st.successful_downloads ≤ 1) := by
  decide

/-- C9: after `backup_history` persists the ledger and a fresh session loads
it through `load_download_history`, any URL from the persisted attempted set
is skipped by `download` with no network fetch (`fetchCount 0`) and with the
state and directory untouched. -/
theorem ledger_roundtrip_skips_tried (env : Env) (url : String) (p : Bool)
    (f : Fetch) (w : Bool) (lim : Option Nat) (st fresh : DState) (fs : FS)
    (h : url ∈ st.tried_urls) :
    download env url p f w lim
        (load_download_history fresh (some (backup_history st))) fs =
      ⟨load_download_history fresh (some (backup_history st)), fs, .skipTried, 0⟩ := by
  have hm : url ∈ (load_download_history fresh (some (backup_history st))).tried_urls := by
    simpa [load_download_history, backup_history] using h
  simp [download, hm]

/-- Witness for C9 at a concrete input: the persisted set holds "u1" and the
restarted session skips it. -/
theorem ledger_roundtrip_skips_tried_witness :
    "u1" ∈ stTried.tried_urls ∧
    download env0 "u1" true (.ok "a") true none
        (load_download_history st0 (some (backup_history stTried))) [] =
      ⟨load_download_history st0 (some (backup_history stTried)), [], .skipTried, 0⟩ :=
  ⟨by decide, ledger_roundtrip_skips_tried env0 "u1" true (.ok "a") true none
    stTried st0 [] (by decide)⟩

/-- A sequential `download` call preserves the serialized-run invariants:
names stay contiguous, no duplicate filename appears, and the counter stays
equal to the success count. -/
theorem download_preserves_SeqInv (env : Env) (url : String) (p : Bool)
    (f : Fetch) (w : Bool) (lim : Option Nat) (st : DState) (fs : FS)
    (h : SeqInv st fs) :
    SeqInv (download env url p f w lim st fs).state
      (download env url p f w lim st fs).fs := by
  rcases download_spec env url p f w lim st fs with
    ⟨-, he⟩ | ⟨-, -, he⟩ | ⟨oc, he, -⟩ | ⟨c, fm, -, -, -, he⟩ | ⟨c, fm, -, -, hl, hfs, he⟩
  · rw [he]; exact h
  · rw [he]; exact h
  · rw [he]; exact h
  · rw [he]; exact h
  · rw [he]
    obtain ⟨⟨g, hg, hmap⟩, hnd, hcs⟩ := h
    refine ⟨⟨fun k => if k = st.image_counter then ext_of_format fm else g k, ?_, ?_⟩, ?_, ?_⟩
    · intro k
      by_cases hk : k = st.image_counter
      · simpa [hk] using ext_of_format_cases fm
      · simpa [hk] using hg k
    · show mkName (st.image_counter + 1) (ext_of_format fm) :: fs.map Prod.fst = _
      have hrev : (List.range (st.image_counter + 1)).reverse =
          st.image_counter :: (List.range st.image_counter).reverse := by
        rw [List.range_succ, List.reverse_append]
        rfl
      rw [hrev, List.map_cons]
      have htail : (List.range st.image_counter).reverse.map
            (fun k => mkName (k + 1)
              (if k = st.image_counter then ext_of_format fm else g k)) =
          (List.range st.image_counter).reverse.map (fun k => mkName (k + 1) (g k)) := by
        apply List.map_congr_left
        intro k hk
        have hk' : k < st.image_counter := by
          rw [List.mem_reverse, List.mem_range] at hk
          exact hk
        rw [if_neg (Nat.ne_of_lt hk')]
      rw [htail, ← hmap]
      simp
    · simp only [List.map_cons]
      exact List.nodup_cons.mpr ⟨lookupAssoc_eq_none hfs, hnd⟩
    · show st.image_counter + 1 = st.successful_downloads + 1
      omega

/-- The spawn loop over one page preserves the serialized-run invariants. -/
theorem runPageCandidates_preserves_SeqInv (env : Env) (lim : Option Nat)
    (cands : List Candidate) :
    ∀ st fs sp, SeqInv st fs →
      SeqInv (runPageCandidates env lim cands st fs sp).1
        (runPageCandidates env lim cands st fs sp).2.1 := by
  induction cands with
  | nil =>
    intro st fs sp h
    simpa [runPageCandidates] using h
  | cons c rest ih =>
    intro st fs sp h
    simp only [runPageCandidates]
    split
    · exact h
    · exact ih _ _ _ (download_preserves_SeqInv _ _ _ _ _ _ _ _ h)

/-- The whole pagination loop preserves the serialized-run invariants. -/
theorem fetchLoop_preserves_SeqInv (env : Env) (lim : Option Nat)
    (pages : List PageResult) :
    ∀ lastLink st fs sp, SeqInv st fs →
      SeqInv (fetchLoop env lim pages lastLink st fs sp).state
        (fetchLoop env lim pages lastLink st fs sp).fs := by
  induction pages with
  | nil =>
    intro l st fs sp h
    simpa [fetchLoop] using h
  | cons pg rest ih =>
    intro l st fs sp h
    cases pg with
    | err => simpa [fetchLoop] using h
    | ok cands =>
      by_cases hc : cands = []
      · simpa [fetchLoop, hc] using h
      · by_cases hl : (cands.map Candidate.url).getLast? = some l
        · simpa [fetchLoop, hc, hl] using h
        · rcases hq : runPageCandidates env lim cands st fs sp with ⟨st1, fs1, sp1, hit⟩
          have hinv : SeqInv st1 fs1 := by
            have := runPageCandidates_preserves_SeqInv env lim cands st fs sp h
            rw [hq] at this
            exact this
          cases hit with
          | true =>
            have heq : fetchLoop env lim (PageResult.ok cands :: rest) l st fs sp =
                ⟨st1, fs1, .limitReached, sp1⟩ := by
              simp only [fetchLoop]
              rw [if_neg hc, if_neg hl, hq]
            rw [heq]
            exact hinv
          | false =>
            have heq : fetchLoop env lim (PageResult.ok cands :: rest) l st fs sp =
                fetchLoop env lim rest ((cands.map Candidate.url).getLastD "") st1 fs1 sp1 := by
              simp only [fetchLoop]
              rw [if_neg hc, if_neg hl, hq]
            rw [heq]
            exact ih _ _ _ _ hinv

/-- C2 amended: under serialized worker execution (each spawned worker runs
to completion before the next starts, which is what the sequential loop
models), the filenames written in one keyword run starting from reset
counters and an empty directory are pairwise distinct and their numeric
indices are exactly the contiguous range 1..N, newest first, where N is the
number of successful writes.  Under arbitrary interleavings this fails (see
the counterexample theorem): two workers may read the same counter value
and write the same filename. -/
theorem serialized_filenames_contiguous (env : Env) (lim : Option Nat)
    (pages : List PageResult) (t : List String) (m : List (String × String))
    (ip : Nat) :
    ((fetchLoop env lim pages "" ⟨t, m, 0, 0, ip⟩ [] 0).fs.map Prod.fst).Nodup ∧
    (fetchLoop env lim pages "" ⟨t, m, 0, 0, ip⟩ [] 0).state.image_counter =
      (fetchLoop env lim pages "" ⟨t, m, 0, 0, ip⟩ [] 0).state.successful_downloads ∧
    ∃ exts : Nat → String,
      (∀ k, exts k = ".jpg" ∨ exts k = ".png") ∧
      (fetchLoop env lim pages "" ⟨t, m, 0, 0, ip⟩ [] 0).fs.map Prod.fst =
        (List.range
            (fetchLoop env lim pages "" ⟨t, m, 0, 0, ip⟩ [] 0).state.image_counter).reverse.map
          (fun k => mkName (k + 1) (exts k)) := by
  have h0 : SeqInv (⟨t, m, 0, 0, ip⟩ : DState) [] :=
    ⟨⟨fun _ => ".jpg", fun _ => Or.inl rfl, by simp⟩, List.nodup_nil, rfl⟩
  obtain ⟨⟨exts, hexts, hmap⟩, hnd, hcs⟩ :=
    fetchLoop_preserves_SeqInv env lim pages "" ⟨t, m, 0, 0, ip⟩ [] 0 h0
  exact ⟨hnd, hcs, exts, hexts, hmap⟩

/-- C2 counterexample: under the interleaving `sched2` the two workers both
read counter value 0 before either has written, both pass the existing-file
check against the still-empty directory, and both successful writes use the
filename "Image1.jpg" (the second overwriting the first): the success count
is 2 yet the successfully written filenames are not pairwise distinct and no
file with index 2 exists. -/
theorem interleaved_duplicate_filename :
    okNames (runSession env0 none sched2 cfg2).workers = ["Image1.jpg", "Image1.jpg"] ∧
    (runSession env0 none sched2 cfg2).shared.st.successful_downloads = 2 ∧
    ¬ (okNames (runSession env0 none sched2 cfg2).workers).Nodup := by
  decide

/-- C3 amended: the sequential counter, the success counter and the
attempted-URL set are mutated only by a fully successful write, and every
discard or exception before the fingerprint registration leaves all shared
structures unchanged; the fingerprint map, however, is registered at line
135, before the write, so a write that then fails leaves the new
fingerprint entry behind while the other three structures are unchanged. -/
theorem mutation_only_after_success (env : Env) (url : String) (p : Bool)
    (f : Fetch) (w : Bool) (lim : Option Nat) (st : DState) (fs : FS)
    (r : DResult) (hr : r = download env url p f w lim st fs) :
    (((∀ n, r.outcome ≠ .ok n) ∧ r.outcome ≠ .failWrite) →
      (r.state.tried_urls = st.tried_urls ∧
       r.state.image_md5s = st.image_md5s ∧
       r.state.image_counter = st.image_counter ∧
       r.state.successful_downloads = st.successful_downloads ∧
       r.fs = fs)) ∧
    (r.outcome = .failWrite →
      (r.state.tried_urls = st.tried_urls ∧
       r.state.image_counter = st.image_counter ∧
       r.state.successful_downloads = st.successful_downloads ∧
       r.fs = fs ∧
       ∃ kk nn, r.state.image_md5s = (kk, nn) :: st.image_md5s)) ∧
    (∀ n, r.outcome = .ok n →
      (r.state.tried_urls = st.tried_urls ++ [url] ∧
       r.state.image_counter = st.image_counter + 1 ∧
       r.state.successful_downloads = st.successful_downloads + 1 ∧
       ∃ kk, r.state.image_md5s = (kk, n) :: st.image_md5s)) := by
  subst hr
  rcases download_spec env url p f w lim st fs with
    ⟨-, he⟩ | ⟨-, -, he⟩ | ⟨oc, he, hoc⟩ | ⟨c, fm, -, -, -, he⟩ | ⟨c, fm, -, -, -, -, he⟩
  · rw [he]
    exact ⟨fun _ => ⟨rfl, rfl, rfl, rfl, rfl⟩, by simp, by simp⟩
  · rw [he]
    exact ⟨fun _ => ⟨rfl, rfl, rfl, rfl, rfl⟩, by simp, by simp⟩
  · rw [he]
    rcases hoc with rfl | rfl | ⟨o, rfl⟩ | rfl | rfl | rfl <;>
      exact ⟨fun _ => ⟨rfl, rfl, rfl, rfl, rfl⟩, by simp, by simp⟩
  · rw [he]
    exact ⟨by simp, fun _ => ⟨rfl, rfl, rfl, rfl,
      env.md5 c, mkName (st.image_counter + 1) (ext_of_format fm), rfl⟩, by simp⟩
  · rw [he]
    refine ⟨by simp, by simp, ?_⟩
    intro n hn
    simp only [Outcome.ok.injEq] at hn
    subst hn
    exact ⟨rfl, rfl, rfl, env.md5 c, rfl⟩

/-- C3 counterexample: a worker whose file write raises (the exception is
caught at line 149) has already registered the fingerprint at line 135, so
the fingerprint map is mutated by a failed attempt, contradicting the claim
that all four structures are unchanged on any error before or during the
write. -/
theorem failed_write_mutates_fingerprint_map :
    (download env0 "u" true (.ok "payload") false none st0 []).outcome = .failWrite ∧
    (download env0 "u" true (.ok "payload") false none st0 []).state.image_md5s =
      [("payload", "Image1.jpg")] ∧
    st0.image_md5s = [] ∧
    (download env0 "u" true (.ok "payload") false none st0 []).state.successful_downloads =
      st0.successful_downloads := by
  decide

/-- Witness for the amended C3 at a concrete input: a fully successful
write updates all four structures. -/
theorem mutation_only_after_success_witness :
    (download env0 "u1" true (.ok "a") true none st0 []).state.tried_urls =
        st0.tried_urls ++ ["u1"] ∧
    (download env0 "u1" true (.ok "a") true none st0 []).state.image_counter =
        st0.image_counter + 1 ∧
    (download env0 "u1" true (.ok "a") true none st0 []).state.successful_downloads =
        st0.successful_downloads + 1 ∧
    ∃ kk, (download env0 "u1" true (.ok "a") true none st0 []).state.image_md5s =
        (kk, "Image1.jpg") :: st0.image_md5s :=
  (mutation_only_after_success env0 "u1" true (.ok "a") true none st0 []
      (download env0 "u1" true (.ok "a") true none st0 []) rfl).2.2 "Image1.jpg" (by decide)

/-- C4 amended: the attempted-URL set records exactly the successful
attempts: a worker appends its URL to `tried_urls` if and only if the write
fully succeeds (line 148 sits after the write inside the `try`), and a URL
already in the set is skipped with no network fetch; hence only a URL whose
earlier occurrence succeeded is guaranteed to be skipped when it reappears. -/
theorem tried_urls_success_only (env : Env) (url : String) (p : Bool) (f : Fetch)
    (w : Bool) (lim : Option Nat) (st : DState) (fs : FS) (r : DResult)
    (hr : r = download env url p f w lim st fs) :
    ((∀ n, r.outcome ≠ .ok n) → r.state.tried_urls = st.tried_urls) ∧
    (∀ n, r.outcome = .ok n → r.state.tried_urls = st.tried_urls ++ [url]) ∧
    (url ∈ st.tried_urls → r = ⟨st, fs, .skipTried, 0⟩) := by
  subst hr
  have h3 : url ∈ st.tried_urls →
      download env url p f w lim st fs = ⟨st, fs, .skipTried, 0⟩ := by
    intro hm
    simp [download, hm]
  rcases download_spec env url p f w lim st fs with
    ⟨-, he⟩ | ⟨-, -, he⟩ | ⟨oc, he, hoc⟩ | ⟨c, fm, -, -, -, he⟩ | ⟨c, fm, -, -, -, -, he⟩
  · exact ⟨fun _ => by rw [he], by rw [he]; simp, h3⟩
  · exact ⟨fun _ => by rw [he], by rw [he]; simp, h3⟩
  · rcases hoc with rfl | rfl | ⟨o, rfl⟩ | rfl | rfl | rfl <;>
      exact ⟨fun _ => by rw [he], by rw [he]; simp, h3⟩
  · exact ⟨fun _ => by rw [he], by rw [he]; simp, h3⟩
  · refine ⟨?_, ?_, h3⟩
    · intro hno
      exact absurd (by rw [he]) (hno (mkName (st.image_counter + 1) (ext_of_format fm)))
    · intro n hn
      rw [he] at hn
      simp only [Outcome.ok.injEq] at hn
      rw [he]

/-- C4 counterexample: a worker whose network fetch fails completes its
attempt, yet its URL is absent from `tried_urls` (line 148 is only reached
on success), so the claim that every attempted URL — successful or not —
lands in the attempted set is false; a later occurrence of "u" would be
fetched again. -/
theorem failed_attempt_absent_from_tried_urls :
    (download env0 "u" true Fetch.err true none st0 []).outcome = .failNetwork ∧
    ¬ ("u" ∈ (download env0 "u" true Fetch.err true none st0 []).state.tried_urls) := by
  decide

/-- Witness for the amended C4 at a concrete input. -/
theorem tried_urls_success_only_witness :
    (download env0 "u1" true (.ok "a") true none st0 []).state.tried_urls =
      st0.tried_urls ++ ["u1"] :=
  (tried_urls_success_only env0 "u1" true (.ok "a") true none st0 []
      (download env0 "u1" true (.ok "a") true none st0 []) rfl).2.1 "Image1.jpg" (by decide)

/-- C5 amended: the media type of a saved file is inferred from the
downloaded bytes, never the URL suffix: when `imghdr.what` returns nothing
the candidate is discarded with no write and no state change; when it
detects a format, the written filename's extension is `ext_of_format` of
that format — ".jpg" for the jpeg family, ".png" for png, and the fallback
".jpg" for every other detected format (which therefore need not match the
detected format). -/
theorem extension_from_detected_format (env : Env) (url : String) (f : Fetch)
    (w : Bool) (lim : Option Nat) (st : DState) (fs : FS) (r : DResult)
    (hr : r = download env url true f w lim st fs) :
    (∀ content, f = .ok content → env.imghdr_what content = none →
      url ∉ st.tried_urls → r.outcome = .skipInvalid ∧ r.fs = fs ∧ r.state = st) ∧
    (∀ n, r.outcome = .ok n →
      ∃ content fmt, f = .ok content ∧ env.imghdr_what content = some fmt ∧
        n = mkName (st.image_counter + 1) (ext_of_format fmt)) := by
  subst hr
  constructor
  · intro content hf hi hm
    subst hf
    refine ⟨?_, ?_, ?_⟩ <;> simp [download, hm, hi]
  · intro n hn
    rcases download_spec env url true f w lim st fs with
      ⟨-, he⟩ | ⟨-, hp, -⟩ | ⟨oc, he, hoc⟩ | ⟨c, fm, -, -, -, he⟩ | ⟨c, fm, hf, hfm, -, -, he⟩
    · rw [he] at hn
      simp at hn
    · cases hp
    · rw [he] at hn
      rcases hoc with rfl | rfl | ⟨o, rfl⟩ | rfl | rfl | rfl <;> simp at hn
    · rw [he] at hn
      simp at hn
    · rw [he] at hn
      simp only [Outcome.ok.injEq] at hn
      exact ⟨c, fm, hf, hfm, hn.symm⟩

/-- C5 counterexample: content detected as "gif" passes the validity check
but is written with the fallback extension ".jpg" (lines 103-104), so the
written extension does not match the detected media format. -/
theorem gif_saved_with_jpg_extension :
    envGif.imghdr_what "gifdata" = some "gif" ∧
    (download envGif "u" true (.ok "gifdata") true none st0 []).outcome =
      .ok "Image1.jpg" ∧
    extension_matches ".jpg" "gif" = false := by
  decide

/-- Witness for the amended C5 at a concrete input. -/
theorem extension_from_detected_format_witness :
    ∃ content fmt, Fetch.ok "a" = Fetch.ok content ∧
      env0.imghdr_what content = some fmt ∧
      "Image1.jpg" = mkName (st0.image_counter + 1) (ext_of_format fmt) :=
  (extension_from_detected_format env0 "u1" (.ok "a") true none st0 []
      (download env0 "u1" true (.ok "a") true none st0 []) rfl).2 "Image1.jpg" (by decide)

/-- C6 amended: the pagination loop returns on an empty extraction, on a
repeated last link, on the limit check of line 199, or on a page-level
network error; in the empty and repeated-last cases it returns immediately
with the state, directory and spawn count unchanged — in particular zero
workers are spawned for the repeated page. -/
theorem pagination_stop_conditions (env : Env) (lim : Option Nat)
    (rest : List PageResult) (lastLink : String) (st : DState) (fs : FS)
    (sp : Nat) :
    fetchLoop env lim (PageResult.ok [] :: rest) lastLink st fs sp =
      ⟨st, fs, .noResults, sp⟩ ∧
    (∀ cands, cands ≠ [] → (cands.map Candidate.url).getLast? = some lastLink →
      fetchLoop env lim (PageResult.ok cands :: rest) lastLink st fs sp =
        ⟨st, fs, .noNewResults, sp⟩) ∧
    fetchLoop env lim (PageResult.err :: rest) lastLink st fs sp =
      ⟨st, fs, .pageError, sp⟩ := by
  refine ⟨by simp [fetchLoop], ?_, by simp [fetchLoop]⟩
  intro cands h1 h2
  simp [fetchLoop, h1, h2]

/-- C6 counterexample: with limit 0 the loop returns `limitReached` on a
page that is neither empty nor repeating, so "terminates exactly when a
page yields zero candidates or repeats its last candidate" is false. -/
theorem limit_stops_pagination :
    (fetch_images_from_keyword env0 (some 0) pages1 st0 []).reason = .limitReached ∧
    (fetch_images_from_keyword env0 (some 0) pages1 st0 []).reason ≠ .noResults ∧
    (fetch_images_from_keyword env0 (some 0) pages1 st0 []).reason ≠ .noNewResults ∧
    (fetch_images_from_keyword env0 (some 0) pages1 st0 []).spawned = 0 := by
  decide

/-- Witness for the amended C6 at a concrete input: a repeated last link
returns `noNewResults` with no state change and no spawn. -/
theorem pagination_stop_conditions_witness :
    fetchLoop env0 none (PageResult.ok [cand_a] :: []) "u1" st0 [] 0 =
      ⟨st0, [], .noNewResults, 0⟩ :=
  (pagination_stop_conditions env0 none [] "u1" st0 [] 0).2.1 [cand_a]
    (by decide) (by decide)

/-- C8 amended: every exception raised inside the guarded region (the
network fetch onwards, lines 88-148) is caught at line 149 and becomes a
discard, so with a well-formed URL the worker never propagates an
exception; but an exception from URL splitting at line 68 — which sits
before the `try` and after the pool acquire of lines 63-64 — escapes the
worker without running the `finally`, leaving `in_progress` incremented
(and the pool permit leaked). -/
theorem worker_exception_containment (env : Env) (url : String) (p : Bool)
    (f : Fetch) (w : Bool) (lim : Option Nat) (st : DState) (fs : FS)
    (r : DResult) (hr : r = download env url p f w lim st fs) :
    (p = true → r.outcome ≠ .raised) ∧
    (r.outcome = .raised →
      p = false ∧ r.state.in_progress = st.in_progress + 1 ∧ r.fetchCount = 0) := by
  subst hr
  rcases download_spec env url p f w lim st fs with
    ⟨-, he⟩ | ⟨-, hp, he⟩ | ⟨oc, he, hoc⟩ | ⟨c, fm, -, -, -, he⟩ | ⟨c, fm, -, -, -, -, he⟩
  · rw [he]
    exact ⟨fun _ => by simp, by simp⟩
  · constructor
    · intro hp'
      rw [hp'] at hp
      exact absurd hp (by simp)
    · intro _
      rw [he]
      exact ⟨hp, rfl, rfl⟩
  · rw [he]
    rcases hoc with rfl | rfl | ⟨o, rfl⟩ | rfl | rfl | rfl <;>
      exact ⟨fun _ => by simp, by simp⟩
  · rw [he]
    exact ⟨fun _ => by simp, by simp⟩
  · rw [he]
    exact ⟨fun _ => by simp, by simp⟩

/-- C8 counterexample: a URL on which `urllib.parse.urlsplit` raises (for
example an unbalanced IPv6 bracket, modelled by `parseOk = false`) makes the
worker propagate the exception with no fetch performed, and `in_progress`
stays incremented because line 68 sits outside the `try`/`finally`. -/
theorem parse_error_escapes_worker :
    (download env0 "http://[" false (.ok "x") true none st0 []).outcome = .raised ∧
    (download env0 "http://[" false (.ok "x") true none st0 []).state.in_progress =
      st0.in_progress + 1 ∧
    (download env0 "http://[" false (.ok "x") true none st0 []).fetchCount = 0 := by
  decide

/-- Witness for the amended C8 at a concrete input. -/
theorem worker_exception_containment_witness :
    (download env0 "u1" true (.ok "a") true none st0 []).outcome ≠ Outcome.raised :=
  (worker_exception_containment env0 "u1" true (.ok "a") true none st0 []
      (download env0 "u1" true (.ok "a") true none st0 []) rfl).1 rfl

/-- One scheduled step never changes the number of workers once the session
has left `paginating`, and the session never re-enters `paginating`. -/
theorem astep_no_spawn (env : Env) (lim : Option Nat) (cfg : Config)
    (a : Option Nat) (h : cfg.sess.phase ≠ .paginating) :
    (astep env lim cfg a).workers.length = cfg.workers.length ∧
    (astep env lim cfg a).sess.phase ≠ .paginating := by
  cases a with
  | none =>
    cases hph : cfg.sess.phase with
    | paginating => exact absurd hph h
    | backingUp => simp [astep, sstep, hph]
    | sdone => simp [astep, sstep, hph]
  | some i =>
    simp only [astep]
    cases hg : cfg.workers.get? i with
    | none => exact ⟨rfl, h⟩
    | some w => exact ⟨List.length_set cfg.workers i _, h⟩

/-- C7 amended: once pagination for a keyword has ended, no schedule spawns
any further worker; the history flush, however, happens immediately after
pagination ends, without waiting for in-flight workers (see the
counterexample theorem, where the checkpoint runs while the one spawned
worker has not even started). -/
theorem no_spawn_after_pagination (env : Env) (lim : Option Nat)
    (sched : List (Option Nat)) :
    ∀ cfg : Config, cfg.sess.phase ≠ .paginating →
      (runSession env lim sched cfg).workers.length = cfg.workers.length ∧
      (runSession env lim sched cfg).sess.phase ≠ .paginating := by
  induction sched with
  | nil =>
    intro cfg h
    exact ⟨rfl, h⟩
  | cons a rest ih =>
    intro cfg h
    obtain ⟨h1, h2⟩ := astep_no_spawn env lim cfg a h
    obtain ⟨h3, h4⟩ := ih (astep env lim cfg a) h2
    constructor
    · show (runSession env lim rest (astep env lim cfg a)).workers.length = _
      rw [h3, h1]
    · show (runSession env lim rest (astep env lim cfg a)).sess.phase ≠ _
      exact h4

/-- Witness for the amended C7 at a concrete input: from a post-pagination
configuration with one finished worker, a checkpoint step plus a worker step
spawn nothing. -/
theorem no_spawn_after_pagination_witness :
    cfgW.sess.phase ≠ SPhase.paginating ∧
    ((runSession env0 none [none, some 0] cfgW).workers.length = cfgW.workers.length ∧
      (runSession env0 none [none, some 0] cfgW).sess.phase ≠ SPhase.paginating) :=
  ⟨by decide, no_spawn_after_pagination env0 none [none, some 0] cfgW (by decide)⟩

/-- C7 counterexample: under schedule `sched7a` the session finishes
pagination and immediately writes the ledger checkpoint while its one
spawned worker is still at its first phase (in flight, not done); under the
extended schedule `sched7` that worker then successfully writes its file
and appends its URL, yet the checkpoint taken earlier is the empty ledger —
the session did not wait for in-flight workers before `backup_history`. -/
theorem backup_runs_with_worker_in_flight :
    (runSession env0 none sched7a cfg7).sess.ledger = some ⟨[], []⟩ ∧
    (runSession env0 none sched7a cfg7).workers.map WState.phase = [WPhase.ph0] ∧
    (runSession env0 none sched7 cfg7).shared.st.tried_urls = ["u1"] ∧
    (runSession env0 none sched7 cfg7).shared.fs = [("Image1.jpg", "a")] ∧
    (runSession env0 none sched7 cfg7).sess.ledger = some ⟨[], []⟩ := by
  decide

/-- A sequential `download` call preserves equality of the sequential
counter and the success counter: both are incremented exactly on the
success path, and together. -/
theorem download_counters_eq (env : Env) (url : String) (p : Bool) (f : Fetch)
    (w : Bool) (lim : Option Nat) (st : DState) (fs : FS)
    (h : st.image_counter = st.successful_downloads) :
    (download env url p f w lim st fs).state.image_counter =
      (download env url p f w lim st fs).state.successful_downloads := by
  rcases download_spec env url p f w lim st fs with
    ⟨-, he⟩ | ⟨-, -, he⟩ | ⟨oc, he, -⟩ | ⟨c, fm, -, -, -, he⟩ | ⟨c, fm, -, -, -, -, he⟩
  · rw [he]; exact h
  · rw [he]; exact h
  · rw [he]; exact h
  · rw [he]; exact h
  · rw [he]
    show st.image_counter + 1 = st.successful_downloads + 1
    omega

/-- The spawn loop over one page preserves equality of the two counters. -/
theorem runPageCandidates_counters_eq (env : Env) (lim : Option Nat)
    (cands : List Candidate) :
    ∀ st fs sp, st.image_counter = st.successful_downloads →
      (runPageCandidates env lim cands st fs sp).1.image_counter =
        (runPageCandidates env lim cands st fs sp).1.successful_downloads := by
  induction cands with
  | nil =>
    intro st fs sp h
    simpa [runPageCandidates] using h
  | cons c rest ih =>
    intro st fs sp h
    simp only [runPageCandidates]
    split
    · exact h
    · exact ih _ _ _ (download_counters_eq _ _ _ _ _ _ _ _ h)

/-- The whole serialized pagination loop preserves equality of the two
counters. -/
theorem fetchLoop_counters_eq (env : Env) (lim : Option Nat)
    (pages : List PageResult) :
    ∀ lastLink st fs sp, st.image_counter = st.successful_downloads →
      (fetchLoop env lim pages lastLink st fs sp).state.image_counter =
        (fetchLoop env lim pages lastLink st fs sp).state.successful_downloads := by
  induction pages with
  | nil =>
    intro l st fs sp h
    simpa [fetchLoop] using h
  | cons pg rest ih =>
    intro l st fs sp h
    cases pg with
    | err => simpa [fetchLoop] using h
    | ok cands =>
      by_cases hc : cands = []
      · simpa [fetchLoop, hc] using h
      · by_cases hl : (cands.map Candidate.url).getLast? = some l
        · simpa [fetchLoop, hc, hl] using h
        · rcases hq : runPageCandidates env lim cands st fs sp with ⟨st1, fs1, sp1, hit⟩
          have heqc : st1.image_counter = st1.successful_downloads := by
            have := runPageCandidates_counters_eq env lim cands st fs sp h
            rw [hq] at this
            exact this
          cases hit with
          | true =>
            have heq : fetchLoop env lim (PageResult.ok cands :: rest) l st fs sp =
                ⟨st1, fs1, .limitReached, sp1⟩ := by
              simp only [fetchLoop]
              rw [if_neg hc, if_neg hl, hq]
            rw [heq]
            exact heqc
          | false =>
            have heq : fetchLoop env lim (PageResult.ok cands :: rest) l st fs sp =
                fetchLoop env lim rest ((cands.map Candidate.url).getLastD "") st1 fs1 sp1 := by
              simp only [fetchLoop]
              rw [if_neg hc, if_neg hl, hq]
            rw [heq]
            exact ih _ _ _ _ heqc

/-- C10 amended: the two counters are reset to zero together at the start
of each keyword, a serialized run preserves their equality (the increments
of lines 145-146 are adjacent and both on the success path only), and on a
successful write the assigned filename index is one plus the success count;
the equality is not an invariant of concurrent runs, because the two
increments are separate statements whose intermediate state is visible to
the lock-free counter reads of lines 107 and 115 (see the counterexample
theorem). -/
theorem serialized_counters_lockstep (env : Env) (lim : Option Nat) :
    (∀ st, (resetCounters st).image_counter = 0 ∧
      (resetCounters st).successful_downloads = 0) ∧
    (∀ url p f w st fs, st.image_counter = st.successful_downloads →
      (download env url p f w lim st fs).state.image_counter =
        (download env url p f w lim st fs).state.successful_downloads) ∧
    (∀ pages lastLink st fs sp, st.image_counter = st.successful_downloads →
      (fetchLoop env lim pages lastLink st fs sp).state.image_counter =
        (fetchLoop env lim pages lastLink st fs sp).state.successful_downloads) ∧
    (∀ url p f w st fs n, st.image_counter = st.successful_downloads →
      (download env url p f w lim st fs).outcome = .ok n →
      ∃ e, n = mkName (st.successful_downloads + 1) e) := by
  refine ⟨fun st => ⟨rfl, rfl⟩,
    fun url p f w st fs h => download_counters_eq env url p f w lim st fs h,
    fun pages lastLink st fs sp h => fetchLoop_counters_eq env lim pages lastLink st fs sp h,
    ?_⟩
  intro url p f w st fs n hcs hok
  rcases download_spec env url p f w lim st fs with
    ⟨-, he⟩ | ⟨-, -, he⟩ | ⟨oc, he, hoc⟩ | ⟨c, fm, -, -, -, he⟩ | ⟨c, fm, -, -, -, -, he⟩
  · rw [he] at hok
    simp at hok
  · rw [he] at hok
    simp at hok
  · rw [he] at hok
    rcases hoc with rfl | rfl | ⟨o, rfl⟩ | rfl | rfl | rfl <;> simp at hok
  · rw [he] at hok
    simp at hok
  · rw [he] at hok
    simp only [Outcome.ok.injEq] at hok
    refine ⟨ext_of_format fm, ?_⟩
    rw [← hok, hcs]

/-- Witness for the amended C10 at a concrete input: the serialized run of
one page under limit 1 keeps the counters equal. -/
theorem serialized_counters_lockstep_witness :
    st0.image_counter = st0.successful_downloads ∧
    (fetchLoop env0 (some 1) pages1 "" st0 [] 0).state.image_counter =
      (fetchLoop env0 (some 1) pages1 "" st0 [] 0).state.successful_downloads :=
  ⟨rfl, (serialized_counters_lockstep env0 (some 1)).2.2.1 pages1 "" st0 [] 0 rfl⟩

/-- C10 counterexample: the increments of lines 145 and 146 are separate
unsynchronized statements, so under schedule `schedC10` the first worker
has executed `image_counter += 1` but not yet `successful_downloads += 1`
while the second worker reads the counter at line 107: the machine reaches
a state with `image_counter = 1` and `successful_downloads = 0`, and the
second worker's assigned filename is "Image2.jpg" — index 2, which is the
success count plus two, so neither "always equals" nor "next index is
always successes plus one" holds of the program. -/
theorem increments_not_atomic :
    (runSession env0 none schedC10 cfg2).shared.st.image_counter = 1 ∧
    (runSession env0 none schedC10 cfg2).shared.st.successful_downloads = 0 ∧
    (runSession env0 none schedC10 cfg2).workers.map WState.filename =
      ["Image1.jpg", "Image2.jpg"] := by
  decide

end CskSniffer
